import Mathlib

/-!
Shallow embedding of the CHIP-8 interpreter core (src/src/chip8.cpp,
first revision block, together with the class layout of chip8.hpp).
Machine integers are modelled as Nat with explicit truncation (` % 256`,
` % 65536`) exactly where the C++ unsigned arithmetic truncates; the
fixed-size arrays (stack, V, keypad, display_buffer, memory) are modelled
as total functions from Nat, updated with Function.update.
-/

/-- The visible constants of the class (chip8.hpp / unnamed headers). -/
def MEMORY_SIZE : Nat := 4096

def STARTING_ADDRESS : Nat := 0x200

def WIDTH : Nat := 64

def HEIGHT : Nat := 32

def SPRITE_WIDTH : Nat := 8

/-- The interpreter state: every data member of class Chip8. -/
structure Chip8 where
  stack : Nat → Nat
  V : Nat → Nat
  keypad : Nat → Nat
  display_buffer : Nat → Nat
  memory : Nat → Nat
  I : Nat
  PC : Nat
  SP : Nat
  DT : Nat
  ST : Nat
  target_register : Nat
  waiting_for_input : Bool

/-- uint8 subtraction a - b as C++ computes it: int subtraction truncated
to 8 bits (two's complement wrap). -/
def sub8 (a b : Nat) : Nat := (((a : Int) - (b : Int)) % 256).toNat

/-- The 80-byte fontset of Chip8::load_font_data. -/
def fontset : List Nat :=
  [0xF0, 0x90, 0x90, 0x90, 0xF0,
   0x20, 0x60, 0x20, 0x20, 0x70,
   0xF0, 0x10, 0xF0, 0x80, 0xF0,
   0xF0, 0x10, 0xF0, 0x10, 0xF0,
   0x90, 0x90, 0xF0, 0x10, 0x10,
   0xF0, 0x80, 0xF0, 0x10, 0xF0,
   0xF0, 0x80, 0xF0, 0x90, 0xF0,
   0xF0, 0x10, 0x20, 0x40, 0x40,
   0xF0, 0x90, 0xF0, 0x90, 0xF0,
   0xF0, 0x90, 0xF0, 0x10, 0xF0,
   0xF0, 0x90, 0xF0, 0x90, 0x90,
   0xE0, 0x90, 0xE0, 0x90, 0xE0,
   0xF0, 0x80, 0x80, 0x80, 0xF0,
   0xE0, 0x90, 0x90, 0x90, 0xE0,
   0xF0, 0x80, 0xF0, 0x80, 0xF0,
   0xF0, 0x80, 0xF0, 0x80, 0x80]

namespace Chip8

/-- Chip8::load_into_memory: this->memory = memory (verbatim replacement). -/
def load_into_memory (s : Chip8) (m : Nat → Nat) : Chip8 := { s with memory := m }

/-- Chip8::load_font_data: std::copy of the 80 fontset bytes to memory.begin(). -/
def load_font_data (s : Chip8) : Chip8 :=
  { s with memory := fun a => if a < 80 then fontset.getD a 0 else s.memory a }

/-- The default member-initialized state of the class (chip8.hpp):
zero arrays, I = 0, PC = STARTING_ADDRESS, SP = DT = ST = 0. -/
def base : Chip8 :=
  { stack := fun _ => 0
    V := fun _ => 0
    keypad := fun _ => 0
    display_buffer := fun _ => 0
    memory := fun _ => 0
    I := 0
    PC := STARTING_ADDRESS
    SP := 0
    DT := 0
    ST := 0
    target_register := 0
    waiting_for_input := false }

/-- Chip8::Chip8(): memory.fill(0); load_font_data(). -/
def init : Chip8 := load_font_data base

/-- Chip8::Chip8(const std::array& memory): load_into_memory(memory);
load_font_data(). -/
def mk_with_memory (m : Nat → Nat) : Chip8 := load_font_data (load_into_memory base m)

/-- Chip8::sys: PC = address & 0x0FFF. -/
def sys (s : Chip8) (address : Nat) : Chip8 := { s with PC := address &&& 0x0FFF }

/-- Chip8::cls: display_buffer.fill(0). -/
def cls (s : Chip8) : Chip8 := { s with display_buffer := fun _ => 0 }

/-- Chip8::ret: SP-- (uint8 wrap); PC = stack[SP]. -/
def ret (s : Chip8) : Chip8 :=
  let sp := (s.SP + 255) % 256
  { s with SP := sp, PC := s.stack sp }

/-- Chip8::jump: PC = address & 0x0FFF. -/
def jump (s : Chip8) (address : Nat) : Chip8 := { s with PC := address &&& 0x0FFF }

/-- Chip8::call: stack[SP] = PC + 2 (uint16 store); PC = address & 0x0FFF;
SP++ (uint8 wrap). -/
def call (s : Chip8) (address : Nat) : Chip8 :=
  { s with stack := Function.update s.stack s.SP ((s.PC + 2) % 65536)
           PC := address &&& 0x0FFF
           SP := (s.SP + 1) % 256 }

/-- Chip8::subtract: V[0xF] = V[x] >= V[y]; then V[x] = V[x] - V[y]
(the subtraction reads the registers after the flag write). -/
def subtract (s : Chip8) (register_x register_y : Nat) : Chip8 :=
  let s1 := { s with V := Function.update s.V 15 (if s.V register_x ≥ s.V register_y then 1 else 0) }
  { s1 with V := Function.update s1.V register_x (sub8 (s1.V register_x) (s1.V register_y)) }

/-- Chip8::load_I: I = address & 0xFFF. -/
def load_I (s : Chip8) (address : Nat) : Chip8 := { s with I := address &&& 0xFFF }

/-- Chip8::jump_off_register: PC = V[0] + address (no 12-bit mask; the
int sum is truncated to the uint16 PC). -/
def jump_off_register (s : Chip8) (address : Nat) : Chip8 :=
  { s with PC := (s.V 0 + address) % 65536 }

/-- Chip8::store_key_press: waiting_for_input = true; target_register = num. -/
def store_key_press (s : Chip8) (register_num : Nat) : Chip8 :=
  { s with waiting_for_input := true, target_register := register_num }

/-- Chip8::store_memory_from_registers: ptr = I; for i = 0..register_num:
memory[ptr++] = V[i] (uint16 ptr wrap). -/
def store_memory_from_registers (s : Chip8) (register_num : Nat) : Chip8 :=
  (List.range (register_num + 1)).foldl
    (fun t i => { t with memory := Function.update t.memory ((t.I + i) % 65536) (t.V i) }) s

/-- Chip8::store_registers_from_memory: ptr = I; for i = 0..register_num:
V[i] = memory[ptr++] (uint16 ptr wrap). -/
def store_registers_from_memory (s : Chip8) (register_num : Nat) : Chip8 :=
  (List.range (register_num + 1)).foldl
    (fun t i => { t with V := Function.update t.V i (t.memory ((t.I + i) % 65536)) }) s

/-- The body of the double loop of Chip8::draw once a set bit's pixel
index p is known: if (*pixel) V[0xF] = 1; *pixel ^= 1. -/
def toggle_step (s : Chip8) (p : Nat) : Chip8 :=
  let s1 := if s.display_buffer p ≠ 0 then { s with V := Function.update s.V 15 1 } else s
  { s1 with display_buffer := Function.update s1.display_buffer p (s1.display_buffer p ^^^ 1) }

/-- One iteration of the inner (column) loop of Chip8::draw:
bit = byte >> (SPRITE_WIDTH - col - 1) & 1; if bit, toggle the pixel at
x + offset where x = (V[register_x] + col) % WIDTH. -/
def draw_col_step (register_x byte offset : Nat) (s : Chip8) (col : Nat) : Chip8 :=
  if byte >>> (SPRITE_WIDTH - col - 1) &&& 1 = 0 then s
  else toggle_step s ((s.V register_x + col) % WIDTH + offset)

/-- One iteration of the outer (row) loop of Chip8::draw:
byte = memory[I + row]; y = (V[register_y] + row) % HEIGHT;
offset = y * WIDTH; then the 8-column inner loop. -/
def draw_row_step (register_x register_y : Nat) (s : Chip8) (row : Nat) : Chip8 :=
  let byte := s.memory (s.I + row)
  let offset := (s.V register_y + row) % HEIGHT * WIDTH
  (List.range SPRITE_WIDTH).foldl (draw_col_step register_x byte offset) s

/-- Chip8::draw: V[0xF] = 0; then the height-row double loop. -/
def draw (s : Chip8) (register_x register_y height : Nat) : Chip8 :=
  let s0 := { s with V := Function.update s.V 15 0 }
  (List.range height).foldl (draw_row_step register_x register_y) s0

/-- Folding toggle_step over a precomputed pixel list: the pure action
Chip8::draw performs when the coordinate registers are not VF. -/
def toggle_list (s : Chip8) (P : List Nat) : Chip8 := P.foldl toggle_step s

/-- The pixel indices one row of Chip8::draw touches, for fixed register
values vx (x origin), vy (y origin), row byte b and row number. -/
def row_targets (vx vy b row : Nat) : List Nat :=
  ((List.range SPRITE_WIDTH).filter (fun c => b >>> (SPRITE_WIDTH - c - 1) &&& 1 != 0)).map
    (fun c => (vx + c) % WIDTH + (vy + row) % HEIGHT * WIDTH)

/-- All pixel indices Chip8::draw touches across its height rows, for
fixed register values and memory. -/
def draw_targets (vx vy : Nat) (mem : Nat → Nat) (i height : Nat) : List Nat :=
  (List.range height).flatMap (fun row => row_targets vx vy (mem (i + row)) row)

/-- Instrumented column step of Chip8::draw: the same state action as
draw_col_step, also recording each display index it touches. -/
def draw_col_step_acc (register_x byte offset : Nat) (sl : Chip8 × List Nat) (col : Nat) :
    Chip8 × List Nat :=
  if byte >>> (SPRITE_WIDTH - col - 1) &&& 1 = 0 then sl
  else
    let p := (sl.1.V register_x + col) % WIDTH + offset
    (toggle_step sl.1 p, sl.2 ++ [p])

/-- Instrumented row step of Chip8::draw. -/
def draw_row_step_acc (register_x register_y : Nat) (sl : Chip8 × List Nat) (row : Nat) :
    Chip8 × List Nat :=
  let byte := sl.1.memory (sl.1.I + row)
  let offset := (sl.1.V register_y + row) % HEIGHT * WIDTH
  (List.range SPRITE_WIDTH).foldl (draw_col_step_acc register_x byte offset) sl

/-- Instrumented Chip8::draw: the resulting state together with the list
of display-buffer indices the handler reads and XOR-writes, in order. -/
def draw_accesses (s : Chip8) (register_x register_y height : Nat) : Chip8 × List Nat :=
  let s0 := { s with V := Function.update s.V 15 0 }
  (List.range height).foldl (draw_row_step_acc register_x register_y) (s0, [])

/-- Modelled from the spec: the ascending scan of key indices 0..15 for
the first pressed key (section 4.4); the scan itself is part of the
resume path absent from src. -/
def first_pressed (kp : Nat → Nat) : Option Nat :=
  (List.range 16).find? (fun i => kp i != 0)

/-- Modelled from the spec: the resume-from-key-wait path of the keypad
mutator (section 4.4) is absent from src, where Chip8::cycle is an empty
stub and Chip8::set_keypad only stores the key status. Per the spec, the
mutator stores the status and, when the engine is waiting for input,
scans keys 0..15 ascending; on the first pressed key it writes that
index into the target register, advances PC by 2 and returns to Running. -/
def set_keypad (s : Chip8) (keypad_num status : Nat) : Chip8 :=
  let s1 := { s with keypad := Function.update s.keypad keypad_num status }
  if s1.waiting_for_input then
    match first_pressed s1.keypad with
    | some m =>
        { s1 with V := Function.update s1.V s1.target_register m
                  PC := (s1.PC + 2) % 65536
                  waiting_for_input := false }
    | none => s1
  else s1

end Chip8

/-- Concrete state for the C3 counterexample: V0 = 5, V15 = 3, rest zero. -/
def cexC3 : Chip8 :=
  { Chip8.base with V := fun i => if i = 0 then 5 else if i = 15 then 3 else 0 }

/-- Concrete state for the C3 amended witness: V0 = 7, V1 = 9. -/
def witC3 : Chip8 :=
  { Chip8.base with V := fun i => if i = 0 then 7 else if i = 1 then 9 else 0 }

/-- Concrete state for the C4 counterexample: V0 = 255, PC = 0x200. -/
def cexC4 : Chip8 :=
  { Chip8.base with V := fun i => if i = 0 then 255 else 0 }

/-- Concrete waiting state for the C2 witness: waiting for input with
target register 3, no key pressed yet. -/
def witC2 : Chip8 :=
  { Chip8.base with waiting_for_input := true, target_register := 3 }

/-- Concrete state for the C6 counterexample: all-zero display, sprite
byte 0xC0 (two set bits) at I = 0x200, drawn with register_x = 15 (VF). -/
def cexC6 : Chip8 :=
  { Chip8.base with I := 0x200
                    memory := fun a => if a = 0x200 then 0xC0 else 0 }

/-- Concrete state for the C6 amended witness: all-zero display, sprite
byte 0x80 at I = 0x300, drawn with registers 0 and 1. -/
def witC6 : Chip8 :=
  { Chip8.base with I := 0x300
                    memory := fun a => if a = 0x300 then 0x80 else 0 }

/-! # Helper lemmas -/

theorem sub8_of_lt (a b : Nat) (ha : a < 256) (hb : b < 256) :
    sub8 a b = (a + 256 - b) % 256 := by
  unfold sub8
  omega

/-! # C3: the subtract handler -/

/-- C3 counterexample: with V0 = 5 and VF = 3, subtract(0, 15) leaves
V0 = 4, not (5 - 3) mod 256 = 2: the handler writes the flag into VF
before it reads the operands, so the claimed pre-mutation semantics
fails when an operand register is VF. -/
theorem C3_subtract_counterexample :
    (cexC3.subtract 0 15).V 0 = 4 ∧
      ¬ (cexC3.subtract 0 15).V 0 = (cexC3.V 0 + 256 - cexC3.V 15) % 256 := by
  constructor
  · decide
  · decide

/-- C3 amended: for register indices x, y in [0,16) with x ≠ 15 and
y ≠ 15 (neither operand is the flag register), subtract sets Vx to
(old Vx - old Vy) mod 256 and VF to 1 if old Vx ≥ old Vy else 0,
with both computed from the pre-instruction register values. -/
theorem C3_subtract_amended (s : Chip8) (x y : Nat)
    (hx : x < 16) (hy : y < 16) (hx15 : x ≠ 15) (hy15 : y ≠ 15)
    (hbx : s.V x < 256) (hby : s.V y < 256) :
    (s.subtract x y).V x = (s.V x + 256 - s.V y) % 256 ∧
      (s.subtract x y).V 15 = (if s.V x ≥ s.V y then 1 else 0) := by
  unfold Chip8.subtract
  by_cases hxy : x = y
  · subst hxy
    constructor
    · simp [Function.update_noteq hx15, sub8_of_lt _ _ hbx hby]
    · simp [Function.update_noteq (Ne.symm hx15), Function.update_noteq hx15]
  · constructor
    · simp [Function.update_noteq hx15, Function.update_noteq hy15,
        Function.update_noteq (Ne.symm hxy), sub8_of_lt _ _ hbx hby]
    · simp [Function.update_noteq (Ne.symm hx15), Function.update_noteq hx15,
        Function.update_noteq hy15]

theorem C3_subtract_amended_witness :
    (witC3.subtract 0 1).V 0 = (witC3.V 0 + 256 - witC3.V 1) % 256 ∧
      (witC3.subtract 0 1).V 15 = (if witC3.V 0 ≥ witC3.V 1 then 1 else 0) :=
  C3_subtract_amended witC3 0 1 (by decide) (by decide) (by decide) (by decide)
    (by decide) (by decide)

/-! # C5: call then ret -/

/-- C5: from any state with SP < 16, call(addr) followed by ret leaves
PC at the call-site PC plus 2 (as a 16-bit value) and SP back at its
pre-call value. -/
theorem C5_call_ret (s : Chip8) (address : Nat) (hsp : s.SP < 16) :
    ((s.call address).ret).PC = (s.PC + 2) % 65536 ∧ ((s.call address).ret).SP = s.SP := by
  unfold Chip8.call Chip8.ret
  constructor
  · simp only
    have h1 : ((s.SP + 1) % 256 + 255) % 256 = s.SP := by omega
    rw [h1, Function.update_same]
  · simp only
    omega

/-- Witness for C5 at the freshly constructed interpreter (SP = 0),
calling address 0xFFF. -/
theorem C5_call_ret_witness :
    ((Chip8.init.call 0xFFF).ret).PC = (Chip8.init.PC + 2) % 65536 ∧
      ((Chip8.init.call 0xFFF).ret).SP = Chip8.init.SP :=
  C5_call_ret Chip8.init 0xFFF (by decide)

/-! # C8: load_into_memory replaces only the memory store -/

/-- C8: load_into_memory installs the given image as the memory store
verbatim and leaves every other component of the state unchanged. -/
theorem C8_load_into_memory (s : Chip8) (m : Nat → Nat) :
    (s.load_into_memory m).memory = m ∧
      (s.load_into_memory m).V = s.V ∧
      (s.load_into_memory m).I = s.I ∧
      (s.load_into_memory m).PC = s.PC ∧
      (s.load_into_memory m).SP = s.SP ∧
      (s.load_into_memory m).DT = s.DT ∧
      (s.load_into_memory m).ST = s.ST ∧
      (s.load_into_memory m).stack = s.stack ∧
      (s.load_into_memory m).keypad = s.keypad ∧
      (s.load_into_memory m).display_buffer = s.display_buffer ∧
      (s.load_into_memory m).target_register = s.target_register ∧
      (s.load_into_memory m).waiting_for_input = s.waiting_for_input := by
  unfold Chip8.load_into_memory
  exact ⟨rfl, rfl, rfl, rfl, rfl, rfl, rfl, rfl, rfl, rfl, rfl, rfl⟩

/-! # C9: the memory-image constructor clobbers the font region -/

/-- C9: constructing with a memory image loads the image and then the
font, so addresses 0..79 hold the font table (whatever the image held
there) and addresses 80..4095 hold the image bytes. -/
theorem C9_ctor_font_clobbers (m : Nat → Nat) (a : Nat) (ha : a < 4096) :
    (Chip8.mk_with_memory m).memory a = if a < 80 then fontset.getD a 0 else m a := by
  unfold Chip8.mk_with_memory Chip8.load_font_data Chip8.load_into_memory
  by_cases h : a < 80 <;> simp [h]

/-- Witness for C9 at the constant-7 image, address 0. -/
theorem C9_ctor_font_clobbers_witness :
    (Chip8.mk_with_memory (fun _ => 7)).memory 0 =
      (if (0 : Nat) < 80 then fontset.getD 0 0 else 7) :=
  C9_ctor_font_clobbers (fun _ => 7) 0 (by decide)

/-! # Fold and projection invariance helpers -/

theorem foldl_proj_inv {α β γ : Type} (g : α → β) (f : α → γ → α)
    (h : ∀ t x, g (f t x) = g t) :
    ∀ (l : List γ) (s : α), g (l.foldl f s) = g s := by
  intro l
  induction l with
  | nil => intro s; rfl
  | cons a l ih => intro s; rw [List.foldl_cons, ih, h]

theorem toggle_step_PC (s : Chip8) (p : Nat) : (s.toggle_step p).PC = s.PC := by
  unfold Chip8.toggle_step
  by_cases h : s.display_buffer p ≠ 0 <;> simp [h]

theorem toggle_step_memory (s : Chip8) (p : Nat) : (s.toggle_step p).memory = s.memory := by
  unfold Chip8.toggle_step
  by_cases h : s.display_buffer p ≠ 0 <;> simp [h]

theorem toggle_step_I (s : Chip8) (p : Nat) : (s.toggle_step p).I = s.I := by
  unfold Chip8.toggle_step
  by_cases h : s.display_buffer p ≠ 0 <;> simp [h]

theorem toggle_step_V_ne (s : Chip8) (p i : Nat) (hi : i ≠ 15) :
    (s.toggle_step p).V i = s.V i := by
  unfold Chip8.toggle_step
  by_cases h : s.display_buffer p ≠ 0 <;> simp [h, Function.update_noteq hi]

theorem toggle_step_display (s : Chip8) (p : Nat) :
    (s.toggle_step p).display_buffer =
      Function.update s.display_buffer p (s.display_buffer p ^^^ 1) := by
  unfold Chip8.toggle_step
  by_cases h : s.display_buffer p ≠ 0 <;> simp [h]

theorem draw_col_step_PC (rx byte offset : Nat) (s : Chip8) (c : Nat) :
    (Chip8.draw_col_step rx byte offset s c).PC = s.PC := by
  unfold Chip8.draw_col_step
  by_cases h : byte >>> (SPRITE_WIDTH - c - 1) &&& 1 = 0
  · rw [if_pos h]
  · rw [if_neg h]; exact toggle_step_PC _ _

theorem draw_col_step_memory (rx byte offset : Nat) (s : Chip8) (c : Nat) :
    (Chip8.draw_col_step rx byte offset s c).memory = s.memory := by
  unfold Chip8.draw_col_step
  by_cases h : byte >>> (SPRITE_WIDTH - c - 1) &&& 1 = 0
  · rw [if_pos h]
  · rw [if_neg h]; exact toggle_step_memory _ _

theorem draw_col_step_I (rx byte offset : Nat) (s : Chip8) (c : Nat) :
    (Chip8.draw_col_step rx byte offset s c).I = s.I := by
  unfold Chip8.draw_col_step
  by_cases h : byte >>> (SPRITE_WIDTH - c - 1) &&& 1 = 0
  · rw [if_pos h]
  · rw [if_neg h]; exact toggle_step_I _ _

theorem draw_col_step_V_ne (rx byte offset : Nat) (s : Chip8) (c i : Nat) (hi : i ≠ 15) :
    (Chip8.draw_col_step rx byte offset s c).V i = s.V i := by
  unfold Chip8.draw_col_step
  by_cases h : byte >>> (SPRITE_WIDTH - c - 1) &&& 1 = 0
  · rw [if_pos h]
  · rw [if_neg h]; exact toggle_step_V_ne _ _ _ hi

theorem draw_row_step_PC (rx ry : Nat) (s : Chip8) (row : Nat) :
    (Chip8.draw_row_step rx ry s row).PC = s.PC := by
  unfold Chip8.draw_row_step
  exact foldl_proj_inv (fun t => t.PC) _ (fun t c => draw_col_step_PC _ _ _ t c) _ s

theorem draw_row_step_memory (rx ry : Nat) (s : Chip8) (row : Nat) :
    (Chip8.draw_row_step rx ry s row).memory = s.memory := by
  unfold Chip8.draw_row_step
  exact foldl_proj_inv (fun t => t.memory) _ (fun t c => draw_col_step_memory _ _ _ t c) _ s

theorem draw_row_step_I (rx ry : Nat) (s : Chip8) (row : Nat) :
    (Chip8.draw_row_step rx ry s row).I = s.I := by
  unfold Chip8.draw_row_step
  exact foldl_proj_inv (fun t => t.I) _ (fun t c => draw_col_step_I _ _ _ t c) _ s

theorem draw_row_step_V_ne (rx ry : Nat) (s : Chip8) (row i : Nat) (hi : i ≠ 15) :
    (Chip8.draw_row_step rx ry s row).V i = s.V i := by
  unfold Chip8.draw_row_step
  exact foldl_proj_inv (fun t => t.V i) _ (fun t c => draw_col_step_V_ne _ _ _ t c i hi) _ s

theorem draw_PC (s : Chip8) (rx ry n : Nat) : (s.draw rx ry n).PC = s.PC := by
  unfold Chip8.draw
  exact foldl_proj_inv (fun t => t.PC) _ (fun t r => draw_row_step_PC _ _ t r) _ _

theorem draw_memory (s : Chip8) (rx ry n : Nat) : (s.draw rx ry n).memory = s.memory := by
  unfold Chip8.draw
  exact foldl_proj_inv (fun t => t.memory) _ (fun t r => draw_row_step_memory _ _ t r) _ _

theorem draw_I (s : Chip8) (rx ry n : Nat) : (s.draw rx ry n).I = s.I := by
  unfold Chip8.draw
  exact foldl_proj_inv (fun t => t.I) _ (fun t r => draw_row_step_I _ _ t r) _ _

theorem draw_V_ne (s : Chip8) (rx ry n i : Nat) (hi : i ≠ 15) :
    (s.draw rx ry n).V i = s.V i := by
  unfold Chip8.draw
  rw [foldl_proj_inv (fun t => t.V i) _ (fun t r => draw_row_step_V_ne _ _ t r i hi) _ _]
  exact Function.update_noteq hi _ _

theorem store_mem_regs_V (s : Chip8) (x : Nat) :
    (s.store_memory_from_registers x).V = s.V := by
  unfold Chip8.store_memory_from_registers
  refine foldl_proj_inv (fun t => t.V) _ (fun t i => ?_) _ s
  rfl

theorem store_mem_regs_I (s : Chip8) (x : Nat) :
    (s.store_memory_from_registers x).I = s.I := by
  unfold Chip8.store_memory_from_registers
  refine foldl_proj_inv (fun t => t.I) _ (fun t i => ?_) _ s
  rfl

theorem store_mem_regs_PC (s : Chip8) (x : Nat) :
    (s.store_memory_from_registers x).PC = s.PC := by
  unfold Chip8.store_memory_from_registers
  refine foldl_proj_inv (fun t => t.PC) _ (fun t i => ?_) _ s
  rfl

theorem store_regs_mem_memory (s : Chip8) (x : Nat) :
    (s.store_registers_from_memory x).memory = s.memory := by
  unfold Chip8.store_registers_from_memory
  refine foldl_proj_inv (fun t => t.memory) _ (fun t i => ?_) _ s
  rfl

theorem store_regs_mem_I (s : Chip8) (x : Nat) :
    (s.store_registers_from_memory x).I = s.I := by
  unfold Chip8.store_registers_from_memory
  refine foldl_proj_inv (fun t => t.I) _ (fun t i => ?_) _ s
  rfl

theorem store_regs_mem_PC (s : Chip8) (x : Nat) :
    (s.store_registers_from_memory x).PC = s.PC := by
  unfold Chip8.store_registers_from_memory
  refine foldl_proj_inv (fun t => t.PC) _ (fun t i => ?_) _ s
  rfl

/-! # C4: PC stays within addressable memory -/

/-- C4 counterexample: from a state with PC = 0x200 < 4096 and V0 = 255,
jump_off_register with the 12-bit address 0xFFF sets
PC = 255 + 0xFFF = 0x10FE ≥ 4096: the handler applies no 12-bit mask,
so not every handler preserves PC < 4096. -/
theorem C4_pc_counterexample :
    cexC4.PC < 4096 ∧ (0xFFF : Nat) < 4096 ∧
      (cexC4.jump_off_register 0xFFF).PC = 0x10FE ∧
      ¬ (cexC4.jump_off_register 0xFFF).PC < 4096 := by
  refine ⟨by decide, by decide, by decide, by decide⟩

/-- C4 amended: the handlers that assign PC from their address argument
mask it to 12 bits (sys, jump, call), so they always leave PC < 4096;
and the handlers that never write PC (cls, subtract, draw, load_I,
load_into_memory, load_font_data, store_key_press and the register-block
moves) leave PC unchanged, hence preserve PC < 4096. jump_off_register
is excluded: it sets PC = V0 + address with no mask. -/
theorem C4_pc_amended (s : Chip8) (address x y rx ry n i : Nat) (m : Nat → Nat) :
    (s.sys address).PC < 4096 ∧ (s.jump address).PC < 4096 ∧ (s.call address).PC < 4096 ∧
      (s.cls).PC = s.PC ∧ (s.subtract x y).PC = s.PC ∧ (s.draw rx ry n).PC = s.PC ∧
      (s.load_I address).PC = s.PC ∧ (s.load_into_memory m).PC = s.PC ∧
      (s.load_font_data).PC = s.PC ∧ (s.store_key_press i).PC = s.PC ∧
      (s.store_memory_from_registers i).PC = s.PC ∧
      (s.store_registers_from_memory i).PC = s.PC := by
  refine ⟨?_, ?_, ?_, rfl, rfl, draw_PC s rx ry n, rfl, rfl, rfl, rfl,
      store_mem_regs_PC s i, store_regs_mem_PC s i⟩
  · exact lt_of_le_of_lt Nat.and_le_right (by norm_num)
  · exact lt_of_le_of_lt Nat.and_le_right (by norm_num)
  · exact lt_of_le_of_lt Nat.and_le_right (by norm_num)

/-! # C7: register-block store then load round-trips -/

theorem store_mem_regs_succ (s : Chip8) (x : Nat) :
    s.store_memory_from_registers (x + 1) =
      (let t := s.store_memory_from_registers x
       { t with memory := Function.update t.memory ((t.I + (x + 1)) % 65536) (t.V (x + 1)) }) := by
  unfold Chip8.store_memory_from_registers
  rw [List.range_succ, List.foldl_append]
  rfl

theorem store_regs_mem_succ (s : Chip8) (x : Nat) :
    s.store_registers_from_memory (x + 1) =
      (let t := s.store_registers_from_memory x
       { t with V := Function.update t.V (x + 1) (t.memory ((t.I + (x + 1)) % 65536)) }) := by
  unfold Chip8.store_registers_from_memory
  rw [List.range_succ, List.foldl_append]
  rfl

theorem store_mem_regs_get (s : Chip8) (x : Nat) (h : s.I + x < 4096) :
    ∀ i, i ≤ x → (s.store_memory_from_registers x).memory (s.I + i) = s.V i := by
  induction x with
  | zero =>
    intro i hi
    interval_cases i
    unfold Chip8.store_memory_from_registers
    show (Function.update s.memory ((s.I + 0) % 65536) (s.V 0)) (s.I + 0) = s.V 0
    have : (s.I + 0) % 65536 = s.I + 0 := Nat.mod_eq_of_lt (by omega)
    rw [this]
    exact Function.update_same _ _ _
  | succ x ih =>
    intro i hi
    rw [store_mem_regs_succ]
    simp only
    have hI : (s.store_memory_from_registers x).I = s.I := store_mem_regs_I s x
    have hV : (s.store_memory_from_registers x).V = s.V := store_mem_regs_V s x
    rw [hI, hV]
    have hmod : (s.I + (x + 1)) % 65536 = s.I + (x + 1) := Nat.mod_eq_of_lt (by omega)
    rw [hmod]
    rcases Nat.lt_or_ge i (x + 1) with hlt | hge
    · rw [Function.update_noteq (by omega)]
      exact ih (by omega) i (by omega)
    · have : i = x + 1 := by omega
      subst this
      exact Function.update_same _ _ _

theorem store_regs_mem_get (s : Chip8) (x : Nat) (h : s.I + x < 4096) :
    ∀ i, i ≤ x → (s.store_registers_from_memory x).V i = s.memory (s.I + i) := by
  induction x with
  | zero =>
    intro i hi
    interval_cases i
    unfold Chip8.store_registers_from_memory
    show (Function.update s.V 0 (s.memory ((s.I + 0) % 65536))) 0 = s.memory (s.I + 0)
    have : (s.I + 0) % 65536 = s.I + 0 := Nat.mod_eq_of_lt (by omega)
    rw [Function.update_same, this]
  | succ x ih =>
    intro i hi
    rw [store_regs_mem_succ]
    simp only
    have hI : (s.store_registers_from_memory x).I = s.I := store_regs_mem_I s x
    have hM : (s.store_registers_from_memory x).memory = s.memory := store_regs_mem_memory s x
    rw [hI, hM]
    rcases Nat.lt_or_ge i (x + 1) with hlt | hge
    · rw [Function.update_noteq (by omega)]
      exact ih (by omega) i (by omega)
    · have : i = x + 1 := by omega
      subst this
      rw [Function.update_same]
      congr 1
      exact Nat.mod_eq_of_lt (by omega)

/-- C7: for x < 16 and I + x < 4096, storing V0..Vx to memory at I and
then loading registers back from the same I reproduces the original
values of V0..Vx, and neither operation modifies I. -/
theorem C7_store_load_roundtrip (s : Chip8) (x i : Nat)
    (hx : x < 16) (hI : s.I + x < 4096) (hi : i ≤ x) :
    ((s.store_memory_from_registers x).store_registers_from_memory x).V i = s.V i ∧
      (s.store_memory_from_registers x).I = s.I ∧
      ((s.store_memory_from_registers x).store_registers_from_memory x).I = s.I := by
  have hI1 : (s.store_memory_from_registers x).I = s.I := store_mem_regs_I s x
  refine ⟨?_, hI1, by rw [store_regs_mem_I, hI1]⟩
  have h2 := store_regs_mem_get (s.store_memory_from_registers x) x (by rw [hI1]; exact hI) i hi
  rw [h2, hI1]
  exact store_mem_regs_get s x hI i hi

/-- Witness for C7 at the freshly constructed interpreter with
I at 0x200 via load_I, x = 2, i = 1. -/
theorem C7_store_load_roundtrip_witness :
    (((Chip8.init.load_I 0x200).store_memory_from_registers 2).store_registers_from_memory 2).V 1 =
        (Chip8.init.load_I 0x200).V 1 ∧
      ((Chip8.init.load_I 0x200).store_memory_from_registers 2).I = (Chip8.init.load_I 0x200).I ∧
      (((Chip8.init.load_I 0x200).store_memory_from_registers 2).store_registers_from_memory 2).I =
        (Chip8.init.load_I 0x200).I :=
  C7_store_load_roundtrip (Chip8.init.load_I 0x200) 2 1 (by decide) (by decide) (by decide)

/-! # C2: resume from key-wait via the keypad mutator -/

theorem find?_range'_least (p : Nat → Bool) :
    ∀ n s m, (List.range' s n).find? p = some m →
      p m = true ∧ s ≤ m ∧ m < s + n ∧ ∀ j, s ≤ j → j < m → p j = false := by
  intro n
  induction n with
  | zero => intro s m h; simp [List.range'] at h
  | succ n ih =>
    intro s m h
    rw [List.range'_succ] at h
    by_cases hp : p s
    · rw [List.find?_cons_of_pos _ hp] at h
      injection h with h
      subst h
      exact ⟨hp, le_refl _, by omega, fun j h1 h2 => absurd h1 (by omega)⟩
    · rw [List.find?_cons_of_neg _ hp] at h
      obtain ⟨h1, h2, h3, h4⟩ := ih (s + 1) m h
      refine ⟨h1, by omega, by omega, fun j hj1 hj2 => ?_⟩
      rcases Nat.eq_or_lt_of_le hj1 with he | hl
      · rw [← he]; exact Bool.of_not_eq_true hp
      · exact h4 j (by omega) hj2

theorem find?_range_least (p : Nat → Bool) (n m : Nat)
    (h : (List.range n).find? p = some m) :
    p m = true ∧ m < n ∧ ∀ j, j < m → p j = false := by
  rw [List.range_eq_range'] at h
  obtain ⟨h1, _, h3, h4⟩ := find?_range'_least p n 0 m h
  exact ⟨h1, by omega, fun j hj => h4 j (Nat.zero_le j) hj⟩

/-- C2: from any state waiting for input, a keypad-mutator call that
marks key k < 16 pressed resumes execution: the engine finds the least
pressed key index m (ascending scan over 0..15), writes m into the
target register, advances PC by 2 (as a 16-bit value), and returns to
Running (waiting_for_input = false). -/
theorem C2_keypad_resume (s : Chip8) (k status : Nat)
    (hw : s.waiting_for_input = true) (hst : status ≠ 0) (hk : k < 16) :
    ∃ m, Chip8.first_pressed (Function.update s.keypad k status) = some m ∧
      m < 16 ∧ Function.update s.keypad k status m ≠ 0 ∧
      (∀ j, j < m → Function.update s.keypad k status j = 0) ∧
      (s.set_keypad k status).V s.target_register = m ∧
      (s.set_keypad k status).PC = (s.PC + 2) % 65536 ∧
      (s.set_keypad k status).waiting_for_input = false := by
  have hex : ∃ x, x ∈ List.range 16 ∧ (Function.update s.keypad k status x != 0) = true := by
    refine ⟨k, List.mem_range.mpr hk, ?_⟩
    rw [Function.update_same]
    exact bne_iff_ne.mpr hst
  have hsome : ((List.range 16).find? (fun i => Function.update s.keypad k status i != 0)).isSome := by
    rw [List.find?_isSome]
    exact hex
  obtain ⟨m, hm⟩ := Option.isSome_iff_exists.mp hsome
  have hm1 : Chip8.first_pressed (Function.update s.keypad k status) = some m := hm
  obtain ⟨h1, h2, h3⟩ := find?_range_least _ _ _ hm
  refine ⟨m, hm1, h2, bne_iff_ne.mp h1, ?_, ?_, ?_, ?_⟩
  · intro j hj
    have := h3 j hj
    simpa [bne_iff_ne] using this
  · unfold Chip8.set_keypad
    simp only [hw, if_true, hm1]
    rw [Function.update_same]
  · unfold Chip8.set_keypad
    simp only [hw, if_true, hm1]
  · unfold Chip8.set_keypad
    simp only [hw, if_true, hm1]

/-- Witness for C2: waiting with target register 3, key 5 pressed;
the engine writes 5 into V3, advances PC from 0x200 to 0x202 and
returns to Running. -/
theorem C2_keypad_resume_witness :
    (witC2.set_keypad 5 1).V 3 = 5 ∧ (witC2.set_keypad 5 1).PC = 0x202 ∧
      (witC2.set_keypad 5 1).waiting_for_input = false := by
  obtain ⟨m, hm, _, _, _, hV, hPC, hW⟩ := C2_keypad_resume witC2 5 1 rfl (by decide) (by decide)
  have h5 : Chip8.first_pressed (Function.update witC2.keypad 5 1) = some 5 := by decide
  rw [h5] at hm
  injection hm with hm
  subst hm
  exact ⟨hV, hPC, hW⟩

/-! # Draw characterization machinery -/

theorem toggle_step_V15 (s : Chip8) (p : Nat) :
    (s.toggle_step p).V 15 = if s.display_buffer p ≠ 0 then 1 else s.V 15 := by
  unfold Chip8.toggle_step
  by_cases h : s.display_buffer p ≠ 0 <;> simp [h]

theorem toggle_list_append (s : Chip8) (A B : List Nat) :
    s.toggle_list (A ++ B) = (s.toggle_list A).toggle_list B :=
  List.foldl_append _ _ _ _

theorem toggle_list_memory (s : Chip8) (P : List Nat) :
    (s.toggle_list P).memory = s.memory := by
  unfold Chip8.toggle_list
  exact foldl_proj_inv (fun t => t.memory) _ (fun t p => toggle_step_memory t p) _ s

theorem toggle_list_I (s : Chip8) (P : List Nat) :
    (s.toggle_list P).I = s.I := by
  unfold Chip8.toggle_list
  exact foldl_proj_inv (fun t => t.I) _ (fun t p => toggle_step_I t p) _ s

theorem toggle_list_V_ne (s : Chip8) (P : List Nat) (i : Nat) (hi : i ≠ 15) :
    (s.toggle_list P).V i = s.V i := by
  unfold Chip8.toggle_list
  exact foldl_proj_inv (fun t => t.V i) _ (fun t p => toggle_step_V_ne t p i hi) _ s

theorem any_congr_mem {α : Type} (l : List α) (f g : α → Bool)
    (h : ∀ x ∈ l, f x = g x) : l.any f = l.any g := by
  induction l with
  | nil => rfl
  | cons a l ih =>
    simp only [List.any_cons]
    rw [h a (List.mem_cons_self a l), ih (fun x hx => h x (List.mem_cons_of_mem a hx))]

theorem toggle_list_display :
    ∀ (P : List Nat), P.Nodup → ∀ (s : Chip8) (q : Nat),
      (s.toggle_list P).display_buffer q =
        if q ∈ P then s.display_buffer q ^^^ 1 else s.display_buffer q := by
  intro P
  induction P with
  | nil => intro _ s q; simp [Chip8.toggle_list]
  | cons p P ih =>
    intro hnd s q
    obtain ⟨hp, hnd2⟩ := List.nodup_cons.mp hnd
    have hcons : s.toggle_list (p :: P) = (s.toggle_step p).toggle_list P := rfl
    rw [hcons, ih hnd2 (s.toggle_step p) q]
    have hd : (s.toggle_step p).display_buffer =
        Function.update s.display_buffer p (s.display_buffer p ^^^ 1) := toggle_step_display s p
    by_cases hq : q = p
    · subst hq
      have hqP : q ∉ P := hp
      simp [hqP, hd, Function.update_same]
    · rw [hd, Function.update_noteq hq]
      by_cases hqP : q ∈ P <;> simp [hqP, hq]

theorem toggle_list_V15_char :
    ∀ (P : List Nat), P.Nodup → ∀ (s : Chip8),
      (s.toggle_list P).V 15 =
        if P.any (fun p => s.display_buffer p != 0) then 1 else s.V 15 := by
  intro P
  induction P with
  | nil => intro _ s; simp [Chip8.toggle_list]
  | cons p P ih =>
    intro hnd s
    obtain ⟨hp, hnd2⟩ := List.nodup_cons.mp hnd
    have hcons : s.toggle_list (p :: P) = (s.toggle_step p).toggle_list P := rfl
    rw [hcons, ih hnd2 (s.toggle_step p)]
    have hany : P.any (fun q => (s.toggle_step p).display_buffer q != 0) =
        P.any (fun q => s.display_buffer q != 0) := by
      refine any_congr_mem P _ _ (fun q hq => ?_)
      have hqp : q ≠ p := fun he => hp (he ▸ hq)
      rw [toggle_step_display, Function.update_noteq hqp]
    rw [hany, toggle_step_V15]
    simp only [List.any_cons]
    by_cases h1 : P.any (fun q => s.display_buffer q != 0) = true
    · simp [h1]
    · by_cases h2 : s.display_buffer p ≠ 0
      · simp [h1, h2]
      · simp [h1, h2]

theorem colfold_toggle (rx byte offset : Nat) (hrx : rx ≠ 15) :
    ∀ (C : List Nat) (s : Chip8),
      C.foldl (Chip8.draw_col_step rx byte offset) s =
        s.toggle_list
          ((C.filter (fun c => byte >>> (SPRITE_WIDTH - c - 1) &&& 1 != 0)).map
            (fun c => (s.V rx + c) % WIDTH + offset)) := by
  intro C
  induction C with
  | nil => intro s; rfl
  | cons c C ih =>
    intro s
    rw [List.foldl_cons, List.filter_cons]
    by_cases h : byte >>> (SPRITE_WIDTH - c - 1) &&& 1 = 0
    · have hstep : Chip8.draw_col_step rx byte offset s c = s := by
        unfold Chip8.draw_col_step
        rw [if_pos h]
      have hbne : (byte >>> (SPRITE_WIDTH - c - 1) &&& 1 != 0) = false := by
        simp [h]
      rw [hstep, if_neg (by rw [hbne]; exact Bool.false_ne_true), ih s]
    · have hstep : Chip8.draw_col_step rx byte offset s c =
          s.toggle_step ((s.V rx + c) % WIDTH + offset) := by
        unfold Chip8.draw_col_step
        rw [if_neg h]
      have hbne : (byte >>> (SPRITE_WIDTH - c - 1) &&& 1 != 0) = true := bne_iff_ne.mpr h
      rw [hstep, if_pos hbne, List.map_cons, ih (s.toggle_step ((s.V rx + c) % WIDTH + offset)),
        toggle_step_V_ne s _ rx hrx]
      rfl

theorem draw_row_step_toggle (rx ry : Nat) (hrx : rx ≠ 15) (s : Chip8) (row : Nat) :
    Chip8.draw_row_step rx ry s row =
      s.toggle_list (Chip8.row_targets (s.V rx) (s.V ry) (s.memory (s.I + row)) row) := by
  unfold Chip8.draw_row_step Chip8.row_targets
  exact colfold_toggle rx _ _ hrx _ s

theorem draw_targets_succ (vx vy : Nat) (mem : Nat → Nat) (i n : Nat) :
    Chip8.draw_targets vx vy mem i (n + 1) =
      Chip8.draw_targets vx vy mem i n ++ Chip8.row_targets vx vy (mem (i + n)) n := by
  unfold Chip8.draw_targets
  rw [List.range_succ, List.flatMap_append]
  simp

theorem rowfold_toggle (rx ry : Nat) (hrx : rx ≠ 15) (hry : ry ≠ 15) :
    ∀ (n : Nat) (s : Chip8),
      (List.range n).foldl (Chip8.draw_row_step rx ry) s =
        s.toggle_list (Chip8.draw_targets (s.V rx) (s.V ry) s.memory s.I n) := by
  intro n
  induction n with
  | zero => intro s; rfl
  | succ n ih =>
    intro s
    rw [List.range_succ, List.foldl_append, List.foldl_cons, List.foldl_nil, ih s]
    rw [draw_row_step_toggle rx ry hrx _ n]
    rw [toggle_list_V_ne s _ rx hrx, toggle_list_V_ne s _ ry hry,
      toggle_list_memory, toggle_list_I]
    rw [← toggle_list_append, ← draw_targets_succ]

theorem draw_toggle (s : Chip8) (rx ry n : Nat) (hrx : rx ≠ 15) (hry : ry ≠ 15) :
    s.draw rx ry n =
      Chip8.toggle_list { s with V := Function.update s.V 15 0 }
        (Chip8.draw_targets (s.V rx) (s.V ry) s.memory s.I n) := by
  unfold Chip8.draw
  rw [rowfold_toggle rx ry hrx hry n _]
  simp only [Function.update_noteq hrx, Function.update_noteq hry]

theorem mem_row_targets {vx vy b row p : Nat} (h : p ∈ Chip8.row_targets vx vy b row) :
    ∃ c, c < 8 ∧ p = (vx + c) % 64 + (vy + row) % 32 * 64 := by
  unfold Chip8.row_targets at h
  obtain ⟨c, hc, rfl⟩ := List.mem_map.mp h
  have hc8 : c < 8 := List.mem_range.mp (List.mem_filter.mp hc).1
  exact ⟨c, hc8, rfl⟩

theorem row_targets_nodup (vx vy b row : Nat) : (Chip8.row_targets vx vy b row).Nodup := by
  unfold Chip8.row_targets
  refine List.Nodup.map_on ?_ (List.Nodup.filter _ (List.nodup_range 8))
  intro c1 hc1 c2 hc2 he
  have h1 : c1 < 8 := List.mem_range.mp (List.mem_filter.mp hc1).1
  have h2 : c2 < 8 := List.mem_range.mp (List.mem_filter.mp hc2).1
  have hW : WIDTH = 64 := rfl
  have hH : HEIGHT = 32 := rfl
  rw [hW, hH] at he
  omega

theorem draw_targets_nodup (vx vy : Nat) (mem : Nat → Nat) (i n : Nat) (hn : n ≤ 32) :
    (Chip8.draw_targets vx vy mem i n).Nodup := by
  unfold Chip8.draw_targets
  rw [List.nodup_flatMap]
  constructor
  · intro r _
    exact row_targets_nodup _ _ _ _
  · rw [List.pairwise_iff_getElem]
    intro a b ha hb hab
    simp only [List.length_range] at ha hb
    simp only [List.getElem_range]
    intro p hpa hpb
    obtain ⟨c1, hc1, he1⟩ := mem_row_targets hpa
    obtain ⟨c2, hc2, he2⟩ := mem_row_targets hpb
    have h1 : (vx + c1) % 64 < 64 := Nat.mod_lt _ (by norm_num)
    have h2 : (vx + c2) % 64 < 64 := Nat.mod_lt _ (by norm_num)
    have h3 : (vy + a) % 32 < 32 := Nat.mod_lt _ (by norm_num)
    have h4 : (vy + b) % 32 < 32 := Nat.mod_lt _ (by norm_num)
    have hy : (vy + a) % 32 = (vy + b) % 32 := by omega
    omega

theorem exists_set_bit (b : Nat) (hb : b < 256) (hnz : b ≠ 0) :
    ∃ c, c < 8 ∧ b >>> (SPRITE_WIDTH - c - 1) &&& 1 ≠ 0 := by
  by_contra hcon
  push_neg at hcon
  have h0 := hcon 0 (by norm_num)
  have h1 := hcon 1 (by norm_num)
  have h2 := hcon 2 (by norm_num)
  have h3 := hcon 3 (by norm_num)
  have h4 := hcon 4 (by norm_num)
  have h5 := hcon 5 (by norm_num)
  have h6 := hcon 6 (by norm_num)
  have h7 := hcon 7 (by norm_num)
  simp only [Nat.shiftRight_eq_div_pow, Nat.and_one_is_mod, SPRITE_WIDTH] at h0 h1 h2 h3 h4 h5 h6 h7
  norm_num at h0 h1 h2 h3 h4 h5 h6 h7
  omega

/-! # C6: drawing the same sprite twice cancels with collision -/

/-- C6 counterexample: with the coordinate register register_x = 15 (VF)
and a two-bit sprite byte 0xC0, the second draw's collision write to VF
shifts the second column's x coordinate, so the display does not return
to all-zero: pixel 2 is set after the two draws (the claim requires it
to be 0). All of the claim's premises hold at this input: the display
starts all-zero, the height is 1 with I + 1 ≤ 4096, and the sprite row
byte 0xC0 is nonzero. -/
theorem C6_draw_twice_counterexample :
    cexC6.I + 1 ≤ 4096 ∧ cexC6.memory cexC6.I ≠ 0 ∧
      ((cexC6.draw 15 0 1).draw 15 0 1).display_buffer 2 = 1 := by
  refine ⟨by decide, by decide, by decide⟩

/-- C6 amended: for every state with an all-zero display buffer, byte
memory, sprite height 1..15 with I + n ≤ 4096 and at least one set bit
among memory[I..I+n), and coordinate registers in [0,16) neither of
which is VF (register 15), drawing the same sprite twice in succession
returns the display buffer to all-zero and leaves VF = 1 after the
second draw. -/
theorem C6_draw_twice_amended (s : Chip8) (rx ry n : Nat)
    (hrx16 : rx < 16) (hry16 : ry < 16) (hrx : rx ≠ 15) (hry : ry ≠ 15)
    (hn1 : 1 ≤ n) (hn2 : n ≤ 15) (hI : s.I + n ≤ 4096)
    (hdisp : ∀ p, s.display_buffer p = 0)
    (hmem : ∀ a, s.memory a < 256)
    (hbit : ∃ r, r < n ∧ s.memory (s.I + r) ≠ 0) :
    (∀ q, ((s.draw rx ry n).draw rx ry n).display_buffer q = 0) ∧
      ((s.draw rx ry n).draw rx ry n).V 15 = 1 := by
  have hnd : (Chip8.draw_targets (s.V rx) (s.V ry) s.memory s.I n).Nodup :=
    draw_targets_nodup _ _ _ _ _ (by omega)
  have hd1 := draw_toggle s rx ry n hrx hry
  have hdisp1 : ∀ q, (s.draw rx ry n).display_buffer q =
      if q ∈ Chip8.draw_targets (s.V rx) (s.V ry) s.memory s.I n then 1 else 0 := by
    intro q
    rw [hd1, toggle_list_display _ hnd _ q]
    by_cases hq : q ∈ Chip8.draw_targets (s.V rx) (s.V ry) s.memory s.I n
    · rw [if_pos hq, if_pos hq]
      show s.display_buffer q ^^^ 1 = 1
      rw [hdisp q]
      decide
    · rw [if_neg hq, if_neg hq]
      exact hdisp q
  have hmem1 : (s.draw rx ry n).memory = s.memory := draw_memory s rx ry n
  have hI1 : (s.draw rx ry n).I = s.I := draw_I s rx ry n
  have hVrx1 : (s.draw rx ry n).V rx = s.V rx := draw_V_ne s rx ry n rx hrx
  have hVry1 : (s.draw rx ry n).V ry = s.V ry := draw_V_ne s rx ry n ry hry
  have hd2 := draw_toggle (s.draw rx ry n) rx ry n hrx hry
  rw [hVrx1, hVry1, hmem1, hI1] at hd2
  constructor
  · intro q
    rw [hd2, toggle_list_display _ hnd _ q]
    by_cases hq : q ∈ Chip8.draw_targets (s.V rx) (s.V ry) s.memory s.I n
    · rw [if_pos hq]
      show (s.draw rx ry n).display_buffer q ^^^ 1 = 0
      rw [hdisp1 q, if_pos hq]
      decide
    · rw [if_neg hq]
      show (s.draw rx ry n).display_buffer q = 0
      rw [hdisp1 q, if_neg hq]
  · rw [hd2, toggle_list_V15_char _ hnd _]
    obtain ⟨r, hr, hner⟩ := hbit
    obtain ⟨c, hc, hbitc⟩ := exists_set_bit (s.memory (s.I + r)) (hmem _) hner
    have hp0row : ((s.V rx + c) % WIDTH + (s.V ry + r) % HEIGHT * WIDTH) ∈
        Chip8.row_targets (s.V rx) (s.V ry) (s.memory (s.I + r)) r := by
      unfold Chip8.row_targets
      refine List.mem_map.mpr ⟨c, ?_, rfl⟩
      exact List.mem_filter.mpr ⟨List.mem_range.mpr hc, bne_iff_ne.mpr hbitc⟩
    have hp0T : ((s.V rx + c) % WIDTH + (s.V ry + r) % HEIGHT * WIDTH) ∈
        Chip8.draw_targets (s.V rx) (s.V ry) s.memory s.I n := by
      unfold Chip8.draw_targets
      exact List.mem_flatMap.mpr ⟨r, List.mem_range.mpr hr, hp0row⟩
    have hval : (s.draw rx ry n).display_buffer
        ((s.V rx + c) % WIDTH + (s.V ry + r) % HEIGHT * WIDTH) = 1 := by
      rw [hdisp1 _, if_pos hp0T]
    rw [if_pos]
    refine List.any_eq_true.mpr ⟨_, hp0T, ?_⟩
    simp [hval]

/-- Witness for C6 amended: sprite byte 0x80 at I = 0x300, drawn twice
with coordinate registers 0 and 1; pixel 7 ends at 0 and VF at 1. -/
theorem C6_draw_twice_amended_witness :
    ((witC6.draw 0 1 1).draw 0 1 1).display_buffer 7 = 0 ∧
      ((witC6.draw 0 1 1).draw 0 1 1).V 15 = 1 := by
  have h := C6_draw_twice_amended witC6 0 1 1 (by decide) (by decide) (by decide) (by decide)
    (by decide) (by decide) (by decide) (fun p => rfl)
    (fun a => by show (if a = 0x300 then 0x80 else 0) < 256; split <;> norm_num)
    ⟨0, by decide, by decide⟩
  exact ⟨h.1 7, h.2⟩

/-! # C10: draw's display accesses are in bounds -/

theorem col_acc_fst (rx byte offset : Nat) :
    ∀ (C : List Nat) (t : Chip8) (l : List Nat),
      (C.foldl (Chip8.draw_col_step_acc rx byte offset) (t, l)).1 =
        C.foldl (Chip8.draw_col_step rx byte offset) t := by
  intro C
  induction C with
  | nil => intro t l; rfl
  | cons c C ih =>
    intro t l
    rw [List.foldl_cons, List.foldl_cons]
    by_cases h : byte >>> (SPRITE_WIDTH - c - 1) &&& 1 = 0
    · have h1 : Chip8.draw_col_step_acc rx byte offset (t, l) c = (t, l) := by
        unfold Chip8.draw_col_step_acc
        rw [if_pos h]
      have h2 : Chip8.draw_col_step rx byte offset t c = t := by
        unfold Chip8.draw_col_step
        rw [if_pos h]
      rw [h1, h2, ih]
    · have h1 : Chip8.draw_col_step_acc rx byte offset (t, l) c =
          (t.toggle_step ((t.V rx + c) % WIDTH + offset),
            l ++ [(t.V rx + c) % WIDTH + offset]) := by
        unfold Chip8.draw_col_step_acc
        rw [if_neg h]
      have h2 : Chip8.draw_col_step rx byte offset t c =
          t.toggle_step ((t.V rx + c) % WIDTH + offset) := by
        unfold Chip8.draw_col_step
        rw [if_neg h]
      rw [h1, h2, ih]

theorem row_acc_fst (rx ry : Nat) (sl : Chip8 × List Nat) (row : Nat) :
    (Chip8.draw_row_step_acc rx ry sl row).1 = Chip8.draw_row_step rx ry sl.1 row := by
  unfold Chip8.draw_row_step_acc Chip8.draw_row_step
  rw [← Prod.mk.eta (p := sl), col_acc_fst]

theorem rows_acc_fst (rx ry : Nat) :
    ∀ (L : List Nat) (t : Chip8) (l : List Nat),
      (L.foldl (Chip8.draw_row_step_acc rx ry) (t, l)).1 =
        L.foldl (Chip8.draw_row_step rx ry) t := by
  intro L
  induction L with
  | nil => intro t l; rfl
  | cons r L ih =>
    intro t l
    rw [List.foldl_cons, List.foldl_cons,
      ← Prod.mk.eta (p := Chip8.draw_row_step_acc rx ry (t, l) r), ih, row_acc_fst]

theorem col_acc_bound (rx byte offset : Nat) (hoff : offset ≤ 1984) :
    ∀ (C : List Nat) (t : Chip8) (l : List Nat),
      (∀ p ∈ l, p < 2048) →
      ∀ p ∈ (C.foldl (Chip8.draw_col_step_acc rx byte offset) (t, l)).2, p < 2048 := by
  intro C
  induction C with
  | nil => intro t l hl p hp; exact hl p hp
  | cons c C ih =>
    intro t l hl p hp
    rw [List.foldl_cons] at hp
    by_cases h : byte >>> (SPRITE_WIDTH - c - 1) &&& 1 = 0
    · have h1 : Chip8.draw_col_step_acc rx byte offset (t, l) c = (t, l) := by
        unfold Chip8.draw_col_step_acc
        rw [if_pos h]
      rw [h1] at hp
      exact ih t l hl p hp
    · have h1 : Chip8.draw_col_step_acc rx byte offset (t, l) c =
          (t.toggle_step ((t.V rx + c) % WIDTH + offset),
            l ++ [(t.V rx + c) % WIDTH + offset]) := by
        unfold Chip8.draw_col_step_acc
        rw [if_neg h]
      rw [h1] at hp
      refine ih _ _ (fun q hq => ?_) p hp
      rcases List.mem_append.mp hq with hq1 | hq2
      · exact hl q hq1
      · have hq3 : q = (t.V rx + c) % WIDTH + offset := List.mem_singleton.mp hq2
        have hm : (t.V rx + c) % WIDTH < 64 := Nat.mod_lt _ (by decide)
        omega

theorem rows_acc_bound (rx ry : Nat) :
    ∀ (L : List Nat) (t : Chip8) (l : List Nat),
      (∀ p ∈ l, p < 2048) →
      ∀ p ∈ (L.foldl (Chip8.draw_row_step_acc rx ry) (t, l)).2, p < 2048 := by
  intro L
  induction L with
  | nil => intro t l hl p hp; exact hl p hp
  | cons r L ih =>
    intro t l hl p hp
    rw [List.foldl_cons,
      ← Prod.mk.eta (p := Chip8.draw_row_step_acc rx ry (t, l) r)] at hp
    refine ih _ _ (fun q hq => ?_) p hp
    have hoff : (t.V ry + r) % HEIGHT * WIDTH ≤ 1984 := by
      have hH : HEIGHT = 32 := rfl
      have hW : WIDTH = 64 := rfl
      rw [hH, hW]
      have := Nat.mod_lt (t.V ry + r) (show 0 < 32 by decide)
      omega
    exact col_acc_bound rx _ _ hoff _ t l hl q hq

/-- C10: the instrumented draw computes the same state as Chip8::draw,
and every display-buffer index it records as accessed — each of the
form (Vx + col) mod 64 + 64 * ((Vy + row) mod 32) — is below 2048, for
every state, register pair and sprite height. -/
theorem C10_draw_accesses_in_bounds (s : Chip8) (rx ry n : Nat) :
    (Chip8.draw_accesses s rx ry n).1 = s.draw rx ry n ∧
      ∀ p ∈ (Chip8.draw_accesses s rx ry n).2, p < 2048 := by
  constructor
  · unfold Chip8.draw_accesses Chip8.draw
    exact rows_acc_fst rx ry _ _ _
  · unfold Chip8.draw_accesses
    exact rows_acc_bound rx ry _ _ _ (fun p hp => absurd hp (List.not_mem_nil p))

/-- Witness for C10: the recorded access list of the concrete one-row
draw contains pixel 0, and the theorem bounds it by 2048. -/
theorem C10_draw_accesses_in_bounds_witness :
    (Chip8.draw_accesses witC6 0 1 1).1 = witC6.draw 0 1 1 ∧ (0 : Nat) < 2048 :=
  ⟨(C10_draw_accesses_in_bounds witC6 0 1 1).1,
    (C10_draw_accesses_in_bounds witC6 0 1 1).2 0 (by decide)⟩
